import Mathlib

/-!
Verification of the fixed-stride point codec in src/point.go (package dkdtree).

Coordinates are Go float64 values; we model them by their IEEE-754 binary64
bit patterns, as natural numbers below 2^64.  The arithmetic used by
distanceSquared (subtraction, multiplication, addition, comparison) is given
an executable bit-level IEEE-754 model with round-to-nearest, ties-to-even.
Payload and record bytes are lists of naturals below 256.  Go `uint32`
arithmetic is modelled by explicit reduction modulo 2^32; Go runtime panics
from out-of-range indexing or slicing are modelled as a distinguished error.
-/

namespace Dkdtree

/-- Sign bit (bit 63) of an IEEE-754 binary64 bit pattern. 9223372036854775808 is 2^63. -/
def sgn (b : Nat) : Bool := decide (9223372036854775808 ≤ b)

/-- Exponent field (bits 52 to 62) of a binary64 bit pattern. 4503599627370496 is 2^52. -/
def expF (b : Nat) : Nat := b / 4503599627370496 % 2048

/-- Fraction field (bits 0 to 51) of a binary64 bit pattern. -/
def frac (b : Nat) : Nat := b % 4503599627370496

def isNaN (b : Nat) : Bool := decide (expF b = 2047) && decide (frac b ≠ 0)

def isInf (b : Nat) : Bool := decide (expF b = 2047) && decide (frac b = 0)

def isZero (b : Nat) : Bool := decide (expF b = 0) && decide (frac b = 0)

/-- Magnitude of a finite binary64 value, as an integer multiple of 2^(-1074). -/
def magScaled (b : Nat) : Nat :=
  if expF b = 0 then frac b else (4503599627370496 + frac b) * 2 ^ (expF b - 1)

/-- Signed value of a finite binary64, as an integer multiple of 2^(-1074). -/
def scaledInt (b : Nat) : Int :=
  if sgn b then -(magScaled b : Int) else (magScaled b : Int)

/-- IEEE negation: flip the sign bit. -/
def fneg (b : Nat) : Nat :=
  if b < 9223372036854775808 then b + 9223372036854775808 else b - 9223372036854775808

/-- IEEE-754 equality on bit patterns, the semantics of Go float64 comparison:
NaN compares unequal to everything (itself included); +0 and -0 compare equal;
all other values are represented by a unique bit pattern, so they are equal
exactly when their bit patterns coincide. -/
def feq (a b : Nat) : Bool :=
  !(isNaN a) && !(isNaN b) && (a == b || (isZero a && isZero b))

/-- Fuelled bit-length helper, structurally recursive so the kernel can evaluate it. -/
def bitlenF : Nat → Nat → Nat
  | 0, _ => 0
  | f + 1, n => if n = 0 then 0 else bitlenF f (n / 2) + 1

/-- Number of binary digits of a natural number (fuel n is always sufficient). -/
def bitlen (n : Nat) : Nat := bitlenF n n

/-- Round mag / 2^k to the nearest integer, ties to even. -/
def rnint (mag k : Nat) : Nat :=
  if k = 0 then mag
  else
    let q := mag / 2 ^ k
    let r := mag % 2 ^ k
    let h := 2 ^ (k - 1)
    if h < r then q + 1 else if r = h ∧ q % 2 = 1 then q + 1 else q

/-- Round the nonnegative dyadic rational mag·2^(-k), read at scale 2^(-1074)
(so its real value is mag·2^(-k)·2^(-1074)), to the magnitude bits of the
nearest binary64, ties to even; magnitudes at or beyond 2^1024 give the
+infinity bit pattern 9218868437227405312 (that is 0x7FF0000000000000). -/
def roundRaw (mag k : Nat) : Nat :=
  if mag = 0 then 0
  else
    let L := bitlen mag
    if L ≤ k + 53 then rnint mag k
    else
      let t := L - k - 53
      let q := rnint mag (k + t)
      if q = 9007199254740992 then
        if 2047 ≤ t + 2 then 9218868437227405312
        else (t + 2) * 4503599627370496
      else
        if 2047 ≤ t + 1 then 9218868437227405312
        else (t + 1) * 4503599627370496 + (q - 4503599627370496)

/-- Rounded magnitude bits, capped at the +infinity bit pattern. -/
def roundDyadic (mag k : Nat) : Nat := min (roundRaw mag k) 9218868437227405312

/-- Attach a sign bit to magnitude bits. -/
def mkSigned (s : Bool) (r : Nat) : Nat := (if s then 9223372036854775808 else 0) + r

/-- IEEE-754 binary64 addition on bit patterns, round to nearest, ties to even.
NaN results are the canonical quiet NaN 9221120237041090560, that is
0x7FF8000000000000, the default NaN produced by the hardware Go runs on. -/
def fadd (a b : Nat) : Nat :=
  if isNaN a || isNaN b then 9221120237041090560
  else if isInf a then
    if isInf b && (sgn a != sgn b) then 9221120237041090560 else a
  else if isInf b then b
  else
    let S : Int := scaledInt a + scaledInt b
    if S = 0 then (if sgn a && sgn b then 9223372036854775808 else 0)
    else mkSigned (decide (S < 0)) (roundDyadic S.natAbs 0)

/-- IEEE-754 binary64 subtraction: a - b is exactly a + (-b). -/
def fsub (a b : Nat) : Nat := fadd a (fneg b)

/-- IEEE-754 binary64 multiplication on bit patterns. The product of two scaled
magnitudes sits at scale 2^(-2148), hence the rounding shift of 1074. -/
def fmul (a b : Nat) : Nat :=
  if isNaN a || isNaN b then 9221120237041090560
  else
    let s := sgn a != sgn b
    if isInf a || isInf b then
      if isZero a || isZero b then 9221120237041090560
      else mkSigned s 9218868437227405312
    else mkSigned s (roundDyadic (magScaled a * magScaled b) 1074)

/-- Point from src/point.go: a coordinate vector of IEEE-754 binary64 bit
patterns and an opaque payload byte sequence. -/
structure Point where
  Pos : List Nat
  Data : List Nat
deriving DecidableEq

/-- pointSize from src/point.go: 1 + uint32Size*3 + dims*float64Size + maxDataLen. -/
def pointSize (dims maxDataLen : Int) : Int := 1 + 4 * 3 + dims * 8 + maxDataLen

/-- Coordinate loop of equal from src/point.go; it runs with the two lengths
already known to coincide. -/
def posEq : List Nat → List Nat → Bool
  | v :: vs, w :: ws => feq v w && posEq vs ws
  | _, _ => true

/-- equal from src/point.go: length checks, Go float64 comparison of each
coordinate pair, then bytes.Equal on the payloads. -/
def equal (p1 p2 : Point) : Bool :=
  if p1.Pos.length = p2.Pos.length ∧ p1.Data.length = p2.Data.length then
    posEq p1.Pos p2.Pos && (p1.Data == p2.Data)
  else false

/-- Loop of distanceSquared from src/point.go: Go ranges over p1.Pos and indexes
p2.Pos at the same index, so a missing index in p2.Pos is a runtime panic,
modelled as none; surplus entries of p2.Pos are silently ignored. -/
def distLoop : List Nat → List Nat → Nat → Option Nat
  | [], _, sum => some sum
  | _ :: _, [], _ => none
  | v :: vs, w :: ws, sum => distLoop vs ws (fadd sum (fmul (fsub v w) (fsub v w)))

/-- distanceSquared from src/point.go; the accumulator starts at +0.0. -/
def distanceSquared (p1 p2 : Point) : Option Nat := distLoop p1.Pos p2.Pos 0

inductive SerErr
  | payloadTooLarge
deriving DecidableEq

/-- Little-endian bytes of a uint32 value. -/
def le32 (n : Nat) : List Nat :=
  [n % 256, n / 256 % 256, n / 65536 % 256, n / 16777216 % 256]

/-- Little-endian bytes of a binary64 bit pattern. -/
def le64 (n : Nat) : List Nat :=
  [n % 256, n / 256 % 256, n / 65536 % 256, n / 16777216 % 256,
   n / 4294967296 % 256, n / 1099511627776 % 256,
   n / 281474976710656 % 256, n / 72057594037927936 % 256]

/-- serialize from src/point.go: returns the bytes written to the writer and
the error, if any.  On success it writes the version byte 0, three
little-endian uint32 fields (dims, dataLen, padLen, each a Go uint32
conversion, hence reduced mod 2^32), the coordinates as little-endian
binary64 values, the payload, and padLen zero bytes.  The payload-length
check precedes every write. -/
def serialize (p : Point) (maxDataLen : Int) : List Nat × Option SerErr :=
  if (p.Data.length : Int) > maxDataLen then ([], some SerErr.payloadTooLarge)
  else
    let padLen : Nat := (maxDataLen - (p.Data.length : Int)).toNat % 4294967296
    ([0] ++ le32 (p.Pos.length % 4294967296) ++ le32 (p.Data.length % 4294967296) ++
       le32 padLen ++ (p.Pos.map le64).flatten ++ p.Data ++ List.replicate padLen 0,
     none)

inductive PErr
  | oob
  | badVersion
  | ioEOF
deriving DecidableEq

/-- Value of binary.LittleEndian.Uint32. -/
def decode4 (b0 b1 b2 b3 : Nat) : Nat := b0 + 256 * b1 + 65536 * b2 + 16777216 * b3

/-- Value of eight little-endian bytes as a binary64 bit pattern. -/
def decode8 (b0 b1 b2 b3 b4 b5 b6 b7 : Nat) : Nat :=
  b0 + 256 * b1 + 65536 * b2 + 16777216 * b3 + 4294967296 * b4 +
    1099511627776 * b5 + 281474976710656 * b6 + 72057594037927936 * b7

/-- Modelled from the spec: readFloats is called by parsePoint in src/point.go
but its definition is not under src/.  Per the spec ("Decode dims little-endian
doubles into Pos", section 4.4) it decodes the buffer as consecutive 8-byte
little-endian binary64 values. -/
def readFloats : List Nat → List Nat
  | b0 :: b1 :: b2 :: b3 :: b4 :: b5 :: b6 :: b7 :: rest =>
      decode8 b0 b1 b2 b3 b4 b5 b6 b7 :: readFloats rest
  | _ => []

/-- parsePointHeader from src/point.go: a version byte then three little-endian
uint32 fields (dims, dataLen, padLen), returning the rest of the buffer.
Reading past the end of the buffer is a Go runtime panic, PErr.oob.  The
version byte is inspected before any length is known to be available. -/
def parsePointHeader (buf : List Nat) :
    Except PErr (Nat × Nat × Nat × List Nat) :=
  match buf with
  | [] => Except.error PErr.oob
  | v :: rest =>
    if v ≠ 0 then Except.error PErr.badVersion
    else
      match rest with
      | a0 :: a1 :: a2 :: a3 :: b0 :: b1 :: b2 :: b3 :: c0 :: c1 :: c2 :: c3 :: body =>
          Except.ok (decode4 a0 a1 a2 a3, decode4 b0 b1 b2 b3, decode4 c0 c1 c2 c3, body)
      | _ => Except.error PErr.oob

/-- Coordinate byte count as computed by parsePoint in src/point.go: dims *
float64Size evaluated in uint32 arithmetic, so it wraps modulo 2^32. -/
def posBytesU32 (dims : Nat) : Nat := dims * 8 % 4294967296

/-- parsePoint from src/point.go.  Each Go slice expression whose bound can
exceed the buffer length is guarded here by the corresponding comparison,
with the out-of-range case mapped to the runtime panic PErr.oob; the skip
count datalen+padlen is a uint32 sum, so it wraps modulo 2^32. -/
def parsePoint (buf : List Nat) : Except PErr (Point × List Nat) :=
  match parsePointHeader buf with
  | Except.error e => Except.error e
  | Except.ok (dims, datalen, padlen, body) =>
    if posBytesU32 dims ≤ body.length then
      let pos := readFloats (body.take (posBytesU32 dims))
      let body2 := body.drop (posBytesU32 dims)
      if datalen ≤ body2.length then
        if (datalen + padlen) % 4294967296 ≤ body2.length then
          Except.ok (⟨pos, body2.take datalen⟩, body2.drop ((datalen + padlen) % 4294967296))
        else Except.error PErr.oob
      else Except.error PErr.oob
    else Except.error PErr.oob

/-- Coordinate byte count as computed by parsePointFromReader in src/point.go:
int(dims) * float64Size, with dims widened to int before the product, so it
does not wrap. -/
def streamCoordBytes (dims : Nat) : Nat := dims * 8

/-- parsePointFromReader from src/point.go, with the reader modelled as the
list of bytes it would deliver.  io.ReadFull failures (EOF on an empty or
short stream) are PErr.ioEOF; the header and body are concatenated and handed
to parsePoint; the second component returned is int(datalen+padlen), the
observed max data length, whose uint32 sum wraps modulo 2^32. -/
def parsePointFromReader (stream : List Nat) : Except PErr (Point × Nat) :=
  if stream.length < 13 then Except.error PErr.ioEOF
  else
    match parsePointHeader (stream.take 13) with
    | Except.error e => Except.error e
    | Except.ok (dims, datalen, padlen, _) =>
      let bodyLen := streamCoordBytes dims + (datalen + padlen) % 4294967296
      if (stream.drop 13).length < bodyLen then Except.error PErr.ioEOF
      else
        match parsePoint (stream.take 13 ++ (stream.drop 13).take bodyLen) with
        | Except.error e => Except.error e
        | Except.ok (p, _) => Except.ok (p, (datalen + padlen) % 4294967296)

/-- Concatenation of independently encoded records, one per point, all with
the same maxDataLen. -/
def encodeAll (ps : List Point) (maxDataLen : Int) : List Nat :=
  (ps.map (fun p => (serialize p maxDataLen).1)).flatten

/-- Repeated application of parsePoint to the successive remainders. -/
def decodeN : Nat → List Nat → Except PErr (List Point × List Nat)
  | 0, buf => Except.ok ([], buf)
  | n + 1, buf =>
    match parsePoint buf with
    | Except.error e => Except.error e
    | Except.ok (p, rem) =>
      match decodeN n rem with
      | Except.error e => Except.error e
      | Except.ok (ps, rem2) => Except.ok (p :: ps, rem2)

theorem decode4_le32 (n : Nat) (h : n < 4294967296) :
    decode4 (n % 256) (n / 256 % 256) (n / 65536 % 256) (n / 16777216 % 256) = n := by
  unfold decode4; omega

theorem decode8_le64 (n : Nat) (h : n < 18446744073709551616) :
    decode8 (n % 256) (n / 256 % 256) (n / 65536 % 256) (n / 16777216 % 256)
      (n / 4294967296 % 256) (n / 1099511627776 % 256)
      (n / 281474976710656 % 256) (n / 72057594037927936 % 256) = n := by
  unfold decode8; omega

theorem length_le64 (n : Nat) : (le64 n).length = 8 := rfl

theorem length_flatten_le64 (l : List Nat) :
    ((l.map le64).flatten).length = 8 * l.length := by
  induction l with
  | nil => rfl
  | cons b bs ih =>
      simp only [List.map_cons, List.flatten_cons, List.length_append, length_le64, ih,
        List.length_cons]
      omega

theorem readFloats_flatten (l : List Nat) (h : ∀ b ∈ l, b < 18446744073709551616) :
    readFloats ((l.map le64).flatten) = l := by
  induction l with
  | nil => rfl
  | cons b bs ih =>
      have hb : b < 18446744073709551616 := h b (List.mem_cons_self b bs)
      have hrest : ∀ x ∈ bs, x < 18446744073709551616 :=
        fun x hx => h x (List.mem_cons_of_mem b hx)
      simp only [List.map_cons, List.flatten_cons, le64, List.cons_append, List.nil_append,
        readFloats]
      rw [decode8_le64 b hb]
      exact congrArg (List.cons b) (ih hrest)

theorem parsePointHeader_shape (d l pd : Nat) (body : List Nat)
    (hd : d < 4294967296) (hl : l < 4294967296) (hp : pd < 4294967296) :
    parsePointHeader (0 :: (le32 d ++ (le32 l ++ (le32 pd ++ body)))) =
      Except.ok (d, l, pd, body) := by
  simp only [le32, List.cons_append, List.nil_append, parsePointHeader]
  norm_num
  rw [decode4_le32 d hd, decode4_le32 l hl, decode4_le32 pd hp]
  exact ⟨rfl, rfl, rfl⟩

theorem serialize_shape (p : Point) (mn : Nat) (h : p.Data.length ≤ mn) :
    (serialize p (mn : Int)).1 =
      0 :: (le32 (p.Pos.length % 4294967296) ++ (le32 (p.Data.length % 4294967296) ++
        (le32 ((mn - p.Data.length) % 4294967296) ++ ((p.Pos.map le64).flatten ++
        (p.Data ++ List.replicate ((mn - p.Data.length) % 4294967296) 0))))) := by
  have hnot : ¬((p.Data.length : Int) > (mn : Int)) := by
    rw [not_lt]
    exact_mod_cast h
  have htn : ((mn : Int) - (p.Data.length : Int)).toNat = mn - p.Data.length := by omega
  simp only [serialize, if_neg hnot, htn, List.append_assoc, List.singleton_append,
    List.cons_append, List.nil_append]

theorem parsePoint_shape (d l pd : Nat) (body : List Nat)
    (hd : d < 4294967296) (hl : l < 4294967296) (hp : pd < 4294967296) :
    parsePoint (0 :: (le32 d ++ (le32 l ++ (le32 pd ++ body)))) =
      (if posBytesU32 d ≤ body.length then
        (if l ≤ (body.drop (posBytesU32 d)).length then
          (if (l + pd) % 4294967296 ≤ (body.drop (posBytesU32 d)).length then
            Except.ok (⟨readFloats (body.take (posBytesU32 d)),
                (body.drop (posBytesU32 d)).take l⟩,
              (body.drop (posBytesU32 d)).drop ((l + pd) % 4294967296))
          else Except.error PErr.oob)
        else Except.error PErr.oob)
      else Except.error PErr.oob) := by
  unfold parsePoint
  rw [parsePointHeader_shape d l pd body hd hl hp]

/-- A record serialized with a payload bound below 2^32, for a point of fewer
than 2^29 coordinates whose entries are binary64 bit patterns, parses back
bit-exactly from the front of any buffer, leaving exactly the trailing
bytes as the remainder. -/
theorem parse_serialize_append (p : Point) (m : Int) (rest : List Nat)
    (hwf : ∀ b ∈ p.Pos, b < 18446744073709551616)
    (hdims : p.Pos.length < 536870912)
    (hlen : (p.Data.length : Int) ≤ m) (hm : m < 4294967296) :
    parsePoint ((serialize p m).1 ++ rest) = Except.ok (p, rest) := by
  obtain ⟨mn, rfl⟩ : ∃ mn : Nat, m = (mn : Int) := ⟨m.toNat, by omega⟩
  have hL : p.Data.length ≤ mn := by exact_mod_cast hlen
  have hmn : mn < 4294967296 := by exact_mod_cast hm
  have hD32 : p.Pos.length % 4294967296 = p.Pos.length := Nat.mod_eq_of_lt (by omega)
  have hL32 : p.Data.length % 4294967296 = p.Data.length := Nat.mod_eq_of_lt (by omega)
  have hP32 : (mn - p.Data.length) % 4294967296 = mn - p.Data.length :=
    Nat.mod_eq_of_lt (by omega)
  rw [serialize_shape p mn hL, hD32, hL32, hP32]
  simp only [List.cons_append, List.append_assoc]
  rw [parsePoint_shape p.Pos.length p.Data.length (mn - p.Data.length)
    ((p.Pos.map le64).flatten ++ (p.Data ++ (List.replicate (mn - p.Data.length) 0 ++ rest)))
    (by omega) (by omega) (by omega)]
  have hJ : ((p.Pos.map le64).flatten).length = posBytesU32 p.Pos.length := by
    rw [length_flatten_le64]
    unfold posBytesU32
    omega
  have htake : (((p.Pos.map le64).flatten ++
      (p.Data ++ (List.replicate (mn - p.Data.length) 0 ++ rest))).take
        (posBytesU32 p.Pos.length)) = (p.Pos.map le64).flatten :=
    List.take_left' hJ
  have hdrop : (((p.Pos.map le64).flatten ++
      (p.Data ++ (List.replicate (mn - p.Data.length) 0 ++ rest))).drop
        (posBytesU32 p.Pos.length)) =
      p.Data ++ (List.replicate (mn - p.Data.length) 0 ++ rest) :=
    List.drop_left' hJ
  have hcond1 : posBytesU32 p.Pos.length ≤
      ((p.Pos.map le64).flatten ++
        (p.Data ++ (List.replicate (mn - p.Data.length) 0 ++ rest))).length := by
    rw [List.length_append, hJ]
    omega
  rw [if_pos hcond1, hdrop, htake, readFloats_flatten p.Pos hwf]
  have hcond2 : p.Data.length ≤
      (p.Data ++ (List.replicate (mn - p.Data.length) 0 ++ rest)).length := by
    rw [List.length_append]
    omega
  have hskip : (p.Data.length + (mn - p.Data.length)) % 4294967296 = mn := by omega
  rw [if_pos hcond2, hskip]
  have hcond3 : mn ≤ (p.Data ++ (List.replicate (mn - p.Data.length) 0 ++ rest)).length := by
    simp only [List.length_append, List.length_replicate]
    omega
  rw [if_pos hcond3]
  have htake2 : (p.Data ++ (List.replicate (mn - p.Data.length) 0 ++ rest)).take
      p.Data.length = p.Data := List.take_left' rfl
  have hdrop2 : (p.Data ++ (List.replicate (mn - p.Data.length) 0 ++ rest)).drop mn =
      rest := by
    rw [← List.append_assoc]
    exact List.drop_left' (by simp only [List.length_append, List.length_replicate]; omega)
  rw [htake2, hdrop2]

theorem feq_self (b : Nat) (h : isNaN b = false) : feq b b = true := by
  unfold feq
  rw [h]
  simp

theorem posEq_self (l : List Nat) (h : ∀ b ∈ l, isNaN b = false) : posEq l l = true := by
  induction l with
  | nil => rfl
  | cons b bs ih =>
      show (feq b b && posEq bs bs) = true
      rw [feq_self b (h b (List.mem_cons_self b bs)),
        ih (fun x hx => h x (List.mem_cons_of_mem b hx))]
      rfl

theorem equal_self (p : Point) (h : ∀ b ∈ p.Pos, isNaN b = false) : equal p p = true := by
  unfold equal
  rw [if_pos ⟨rfl, rfl⟩, posEq_self p.Pos h]
  simp

theorem posEq_iff_forall2 (a : List Nat) (b : List Nat) (h : a.length = b.length) :
    posEq a b = true ↔ List.Forall₂ (fun x y => feq x y = true) a b := by
  induction a generalizing b with
  | nil =>
      cases b with
      | nil => simp [posEq]
      | cons y ys => simp at h
  | cons x xs ih =>
      cases b with
      | nil => simp at h
      | cons y ys =>
          have hlen : xs.length = ys.length := by simpa using h
          constructor
          · intro hp
            have hp2 : feq x y = true ∧ posEq xs ys = true := by
              simpa [posEq, Bool.and_eq_true] using hp
            exact List.Forall₂.cons hp2.1 ((ih ys hlen).mp hp2.2)
          · intro hf
            cases hf with
            | cons h1 h2 =>
                show (feq x y && posEq xs ys) = true
                rw [h1, (ih ys hlen).mpr h2]
                rfl

theorem encodeAll_cons (p : Point) (ps : List Point) (m : Int) :
    encodeAll (p :: ps) m = (serialize p m).1 ++ encodeAll ps m := by
  simp [encodeAll]

theorem decodeN_encodeAll (ps : List Point) (m : Int) (rest : List Nat)
    (h : ∀ p ∈ ps, (∀ b ∈ p.Pos, b < 18446744073709551616) ∧
      p.Pos.length < 536870912 ∧ (p.Data.length : Int) ≤ m)
    (hm : m < 4294967296) :
    decodeN ps.length (encodeAll ps m ++ rest) = Except.ok (ps, rest) := by
  induction ps generalizing rest with
  | nil => simp [encodeAll, decodeN]
  | cons p pstl ih =>
      have hp := h p (List.mem_cons_self p pstl)
      have htl : ∀ q ∈ pstl, (∀ b ∈ q.Pos, b < 18446744073709551616) ∧
          q.Pos.length < 536870912 ∧ (q.Data.length : Int) ≤ m :=
        fun q hq => h q (List.mem_cons_of_mem p hq)
      rw [encodeAll_cons, List.append_assoc]
      show decodeN (pstl.length + 1) _ = _
      unfold decodeN
      rw [parse_serialize_append p m (encodeAll pstl m ++ rest) hp.1 hp.2.1 hp.2.2 hm]
      simp only [ih rest htl]

/-- C1 (amended): for every Point p whose coordinates are binary64 bit patterns
none of which is NaN, with fewer than 2^29 coordinates, and every maxDataLen
with len(p.Data) ≤ maxDataLen < 2^32, encoding p with serialize and decoding
with parsePoint succeeds and yields a Point equal to p under equal, with an
empty unconsumed remainder.  (The NaN exclusion and the two size bounds are
forced by the code: equal rejects NaN coordinates, and the uint32 header
fields and the uint32 product dims*8 in parsePoint wrap beyond them.) -/
theorem serialize_parsePoint_roundtrip (p : Point) (m : Int)
    (hwf : ∀ b ∈ p.Pos, b < 18446744073709551616)
    (hnan : ∀ b ∈ p.Pos, isNaN b = false)
    (hdims : p.Pos.length < 536870912)
    (hlen : (p.Data.length : Int) ≤ m) (hm : m < 4294967296) :
    ∃ q : Point, parsePoint (serialize p m).1 = Except.ok (q, ([] : List Nat)) ∧
      equal p q = true := by
  refine ⟨p, ?_, equal_self p hnan⟩
  have h := parse_serialize_append p m [] hwf hdims hlen hm
  rwa [List.append_nil] at h

/-- Witness for C1 at the spec's own concrete scenario: Pos holds the bit
patterns of 1.0 and 2.0, Data is [170, 187], maxDataLen is 4. -/
theorem serialize_parsePoint_roundtrip_witness :
    ∃ q : Point,
      parsePoint (serialize ⟨[4607182418800017408, 4611686018427387904], [170, 187]⟩ 4).1 =
        Except.ok (q, ([] : List Nat)) ∧
      equal ⟨[4607182418800017408, 4611686018427387904], [170, 187]⟩ q = true :=
  serialize_parsePoint_roundtrip ⟨[4607182418800017408, 4611686018427387904], [170, 187]⟩ 4
    (by decide) (by decide) (by decide) (by decide) (by decide)

/-- C1 counterexample: the point whose single coordinate is the quiet NaN bit
pattern 0x7FF8000000000000 round-trips bit-exactly with an empty remainder,
yet equal rejects the decoded result, because a NaN coordinate is not equal
to itself under the Go float64 comparison equal uses; so the round-trip claim
fails at this point even though len(Data) = 0 ≤ maxDataLen = 0. -/
theorem roundtrip_nan_not_equal :
    parsePoint (serialize ⟨[9221120237041090560], []⟩ 0).1 =
      Except.ok (⟨[9221120237041090560], []⟩, ([] : List Nat)) ∧
    equal ⟨[9221120237041090560], []⟩ ⟨[9221120237041090560], []⟩ = false :=
  ⟨rfl, rfl⟩

/-- C2: parsePoint has no truncation guard.  On the 13-byte buffer whose
header declares dims 1, dataLen 0, padLen 0 (so the header itself implies 8
more bytes) it slices out of range, a Go runtime panic, not a TruncatedRecord
error; on the 1-byte buffer [0] the header read itself panics; and on the
13-byte buffer whose header declares dims 2^29 (so the implied length is
13 + 2^32) the uint32 product dims*8 wraps to 0 and parsing SUCCEEDS,
returning an empty point. -/
theorem parsePoint_truncation_panics :
    parsePoint [0, 1, 0, 0, 0, 0, 0, 0, 0, 0, 0, 0, 0] = Except.error PErr.oob ∧
    parsePoint [0] = Except.error PErr.oob ∧
    parsePoint [0, 0, 0, 0, 32, 0, 0, 0, 0, 0, 0, 0, 0] =
      Except.ok (⟨[], []⟩, ([] : List Nat)) :=
  ⟨rfl, rfl, rfl⟩

/-- C3 (amended): a successful serialize writes exactly 1 + 12 + D*8 +
maxDataLen bytes, equal to pointSize(D, maxDataLen), provided the padding
count maxDataLen - len(Data) fits in a uint32; beyond 2^32 the uint32
conversion of the padding length wraps and fewer bytes are written. -/
theorem serialize_length_eq_pointSize (p : Point) (m : Int)
    (hlen : (p.Data.length : Int) ≤ m) (hpad : m - p.Data.length < 4294967296) :
    ((serialize p m).1.length : Int) = pointSize p.Pos.length m := by
  obtain ⟨mn, rfl⟩ : ∃ mn : Nat, m = (mn : Int) := ⟨m.toNat, by omega⟩
  have hL : p.Data.length ≤ mn := by exact_mod_cast hlen
  have hP32 : (mn - p.Data.length) % 4294967296 = mn - p.Data.length := by omega
  rw [serialize_shape p mn hL, hP32]
  simp only [List.length_cons, List.length_append, le32, length_flatten_le64,
    List.length_replicate, List.length_nil]
  unfold pointSize
  omega

/-- Witness for C3 at the spec's concrete scenario: 33 bytes for D = 2,
maxDataLen = 4. -/
theorem serialize_length_eq_pointSize_witness :
    ((serialize ⟨[4607182418800017408, 4611686018427387904], [170, 187]⟩ 4).1.length : Int) =
      pointSize ((⟨[4607182418800017408, 4611686018427387904], [170, 187]⟩ : Point).Pos.length) 4 :=
  serialize_length_eq_pointSize ⟨[4607182418800017408, 4611686018427387904], [170, 187]⟩ 4
    (by decide) (by decide)

/-- C3 counterexample: with maxDataLen = 2^32 and an empty payload, the uint32
conversion of the padding length wraps to 0, so serialize writes only the 13
header bytes, not the pointSize(0, 2^32) = 13 + 2^32 bytes the claim states. -/
theorem serialize_length_ne_pointSize_large :
    ((serialize ⟨[], []⟩ 4294967296).1.length : Int) ≠ pointSize 0 4294967296 := by
  decide

/-- C4: serialize fails with PayloadTooLarge exactly when len(Data) >
maxDataLen, and in that case the check happens before any byte is written,
so the bytes written are empty. -/
theorem serialize_payloadTooLarge_iff (p : Point) (m : Int) :
    ((serialize p m).2 = some SerErr.payloadTooLarge ↔ (p.Data.length : Int) > m) ∧
    ((p.Data.length : Int) > m → (serialize p m).1 = []) := by
  unfold serialize
  by_cases h : (p.Data.length : Int) > m
  · rw [if_pos h]
    exact ⟨⟨fun _ => h, fun _ => rfl⟩, fun _ => rfl⟩
  · rw [if_neg h]
    exact ⟨⟨fun hc => absurd hc (by simp), fun hc => absurd hc h⟩, fun hc => absurd hc h⟩

/-- Witness for C4: a 2-byte payload with maxDataLen 1 fails with
PayloadTooLarge and writes nothing. -/
theorem serialize_payloadTooLarge_iff_witness :
    (serialize ⟨[], [1, 2]⟩ 1).2 = some SerErr.payloadTooLarge ∧
    (serialize ⟨[], [1, 2]⟩ 1).1 = [] :=
  ⟨(serialize_payloadTooLarge_iff ⟨[], [1, 2]⟩ 1).1.mpr (by decide),
   (serialize_payloadTooLarge_iff ⟨[], [1, 2]⟩ 1).2 (by decide)⟩

/-- C5: for every buffer of at least header length whose first byte is not 0,
parsePointHeader fails with the invalid-serialization-version error, and so
do both record decoders, parsePoint and parsePointFromReader. -/
theorem parse_version_guard (v : Nat) (rest : List Nat) (hv : v ≠ 0)
    (hlen : 13 ≤ (v :: rest).length) :
    parsePointHeader (v :: rest) = Except.error PErr.badVersion ∧
    parsePoint (v :: rest) = Except.error PErr.badVersion ∧
    parsePointFromReader (v :: rest) = Except.error PErr.badVersion := by
  have h1 : parsePointHeader (v :: rest) = Except.error PErr.badVersion := by
    simp only [parsePointHeader]
    rw [if_pos hv]
  refine ⟨h1, ?_, ?_⟩
  · unfold parsePoint
    rw [h1]
  · have hlt : ¬((v :: rest).length < 13) := by omega
    unfold parsePointFromReader
    rw [if_neg hlt]
    have h2 : (v :: rest).take 13 = v :: rest.take 12 := List.take_succ_cons
    have h3 : parsePointHeader (v :: rest.take 12) = Except.error PErr.badVersion := by
      simp only [parsePointHeader]
      rw [if_pos hv]
    rw [h2, h3]

/-- Witness for C5 on a 13-byte buffer with version byte 1. -/
theorem parse_version_guard_witness :
    parsePointHeader [1, 0, 0, 0, 0, 0, 0, 0, 0, 0, 0, 0, 0] = Except.error PErr.badVersion ∧
    parsePoint [1, 0, 0, 0, 0, 0, 0, 0, 0, 0, 0, 0, 0] = Except.error PErr.badVersion ∧
    parsePointFromReader [1, 0, 0, 0, 0, 0, 0, 0, 0, 0, 0, 0, 0] =
      Except.error PErr.badVersion :=
  parse_version_guard 1 [0, 0, 0, 0, 0, 0, 0, 0, 0, 0, 0, 0] (by decide) (by decide)

/-- C6 (amended): N points, each with non-NaN binary64 coordinates, fewer
than 2^29 of them, and payload within a common maxDataLen below 2^32, encoded
independently and concatenated, are recovered in order, bit-exactly and equal
under equal, by N successive applications of parsePoint, ending with an empty
remainder.  (Same amendments as the round-trip claim, for the same reasons.) -/
theorem sequential_decode (ps : List Point) (m : Int)
    (h : ∀ p ∈ ps, (∀ b ∈ p.Pos, b < 18446744073709551616 ∧ isNaN b = false) ∧
      p.Pos.length < 536870912 ∧ (p.Data.length : Int) ≤ m)
    (hm : m < 4294967296) :
    decodeN ps.length (encodeAll ps m) = Except.ok (ps, ([] : List Nat)) ∧
    List.Forall₂ (fun a b => equal a b = true) ps ps := by
  constructor
  · have h2 : ∀ p ∈ ps, (∀ b ∈ p.Pos, b < 18446744073709551616) ∧
        p.Pos.length < 536870912 ∧ (p.Data.length : Int) ≤ m :=
      fun p hp => ⟨fun b hb => ((h p hp).1 b hb).1, (h p hp).2.1, (h p hp).2.2⟩
    have h3 := decodeN_encodeAll ps m [] h2 hm
    rwa [List.append_nil] at h3
  · rw [List.forall₂_same]
    exact fun p hp => equal_self p (fun b hb => ((h p hp).1 b hb).2)

/-- Witness for C6 with two concrete records, maxDataLen 3. -/
theorem sequential_decode_witness :
    decodeN 2 (encodeAll [⟨[4607182418800017408], [1, 2]⟩, ⟨[4611686018427387904], []⟩] 3) =
      Except.ok ([⟨[4607182418800017408], [1, 2]⟩, ⟨[4611686018427387904], []⟩],
        ([] : List Nat)) ∧
    List.Forall₂ (fun a b => equal a b = true)
      [⟨[4607182418800017408], [1, 2]⟩, ⟨[4611686018427387904], []⟩]
      [⟨[4607182418800017408], [1, 2]⟩, ⟨[4611686018427387904], []⟩] :=
  sequential_decode [⟨[4607182418800017408], [1, 2]⟩, ⟨[4611686018427387904], []⟩] 3
    (by decide) (by decide)

/-- C6 counterexample: a one-record sequence whose point has the quiet NaN
coordinate 0x7FF8000000000000 decodes bit-exactly, but the decoded point is
not equal to the original under equal, so sequential decoding does not
recover points equal under equal. -/
theorem sequential_decode_nan_not_equal :
    decodeN 1 (encodeAll [⟨[9221120237041090560], []⟩] 0) =
      Except.ok ([⟨[9221120237041090560], []⟩], ([] : List Nat)) ∧
    equal ⟨[9221120237041090560], []⟩ ⟨[9221120237041090560], []⟩ = false :=
  ⟨rfl, rfl⟩

/-- C7 (amended): equal a b is true iff the coordinate vectors have equal
length, the payloads have equal length, corresponding coordinates are equal
under IEEE-754 float64 comparison feq (so NaN coordinates make it false and
+0 equals -0), and the payload bytes coincide.  The comparison is exact, with
no tolerance, but it is the Go float64 comparison, not bitwise equality. -/
theorem equal_iff_ieee (a b : Point) :
    equal a b = true ↔
      (a.Pos.length = b.Pos.length ∧ a.Data.length = b.Data.length ∧
        List.Forall₂ (fun x y => feq x y = true) a.Pos b.Pos ∧ a.Data = b.Data) := by
  unfold equal
  by_cases hl : a.Pos.length = b.Pos.length ∧ a.Data.length = b.Data.length
  · rw [if_pos hl, Bool.and_eq_true, beq_iff_eq, posEq_iff_forall2 a.Pos b.Pos hl.1]
    tauto
  · rw [if_neg hl]
    simp only [Bool.false_eq_true, false_iff]
    intro hcon
    exact hl ⟨hcon.1, hcon.2.1⟩

/-- C7 counterexample: the points with single coordinates +0.0 (bits 0) and
-0.0 (bits 2^63) are equal under equal although their coordinate bit patterns
differ, so equal is not bitwise coordinate equality. -/
theorem equal_not_bitwise :
    equal ⟨[0], []⟩ ⟨[9223372036854775808], []⟩ = true ∧
    (Point.mk [0] []).Pos ≠ (Point.mk [9223372036854775808] []).Pos :=
  ⟨rfl, by decide⟩

/-- C8: distanceSquared performs no length check and never returns an error
value.  With a.Pos empty and b.Pos of length 1 it silently returns +0.0,
truncating to the shorter vector, instead of failing fast; in the opposite
order it is an index-out-of-range runtime panic, not an error return. -/
theorem distanceSquared_silent_truncation :
    distanceSquared ⟨[], []⟩ ⟨[4607182418800017408], []⟩ = some 0 ∧
    distanceSquared ⟨[4607182418800017408], []⟩ ⟨[], []⟩ = none :=
  ⟨rfl, rfl⟩

/-- C10: parsePoint computes the coordinate byte count as dims*8 in uint32
arithmetic, which wraps modulo 2^32, so for every dims at or above 2^29 it
differs from the exact product (and is 0 at dims = 2^29), while
parsePointFromReader sizes its body read with the unwrapped product
int(dims)*8; hence the two decoders disagree on the body length of any header
declaring dims at or above 2^29. -/
theorem posBytes_wrap_disagree :
    (∀ dims : Nat, 536870912 ≤ dims → dims < 4294967296 →
      posBytesU32 dims ≠ streamCoordBytes dims) ∧
    posBytesU32 536870912 = 0 ∧
    (∀ dims : Nat, streamCoordBytes dims = 8 * dims) := by
  refine ⟨?_, rfl, fun dims => by unfold streamCoordBytes; omega⟩
  intro dims h1 h2
  unfold posBytesU32 streamCoordBytes
  omega

/-- Witness for C10 at dims = 2^29. -/
theorem posBytes_wrap_disagree_witness :
    posBytesU32 536870912 ≠ streamCoordBytes 536870912 :=
  posBytes_wrap_disagree.1 536870912 (by decide) (by decide)

theorem fneg_lt (b : Nat) (h : b < 18446744073709551616) :
    fneg b < 18446744073709551616 := by
  unfold fneg
  split <;> omega

theorem sgn_fneg (b : Nat) (h : b < 18446744073709551616) : sgn (fneg b) = !sgn b := by
  unfold sgn
  rw [← decide_not, decide_eq_decide]
  unfold fneg
  split <;> omega

theorem expF_fneg (b : Nat) (h : b < 18446744073709551616) : expF (fneg b) = expF b := by
  unfold expF fneg
  split <;> omega

theorem frac_fneg (b : Nat) (h : b < 18446744073709551616) : frac (fneg b) = frac b := by
  unfold frac fneg
  split <;> omega

theorem isNaN_fneg (b : Nat) (h : b < 18446744073709551616) : isNaN (fneg b) = isNaN b := by
  unfold isNaN
  rw [expF_fneg b h, frac_fneg b h]

theorem isInf_fneg (b : Nat) (h : b < 18446744073709551616) : isInf (fneg b) = isInf b := by
  unfold isInf
  rw [expF_fneg b h, frac_fneg b h]

theorem isZero_fneg (b : Nat) (h : b < 18446744073709551616) :
    isZero (fneg b) = isZero b := by
  unfold isZero
  rw [expF_fneg b h, frac_fneg b h]

theorem magScaled_fneg (b : Nat) (h : b < 18446744073709551616) :
    magScaled (fneg b) = magScaled b := by
  unfold magScaled
  rw [expF_fneg b h, frac_fneg b h]

theorem scaledInt_fneg (b : Nat) (h : b < 18446744073709551616) :
    scaledInt (fneg b) = -scaledInt b := by
  unfold scaledInt
  rw [sgn_fneg b h, magScaled_fneg b h]
  cases sgn b <;> simp

theorem expF_mkSigned (s : Bool) (r : Nat) :
    expF (mkSigned s r) = expF r := by
  unfold expF mkSigned
  cases s
  · simp
  · simp only [if_true]
    omega

theorem frac_mkSigned (s : Bool) (r : Nat) :
    frac (mkSigned s r) = frac r := by
  unfold frac mkSigned
  cases s
  · simp
  · simp only [if_true]
    omega

theorem isNaN_mkSigned (s : Bool) (r : Nat) :
    isNaN (mkSigned s r) = isNaN r := by
  unfold isNaN
  rw [expF_mkSigned s r, frac_mkSigned s r]

theorem isInf_mkSigned (s : Bool) (r : Nat) :
    isInf (mkSigned s r) = isInf r := by
  unfold isInf
  rw [expF_mkSigned s r, frac_mkSigned s r]

theorem isZero_mkSigned (s : Bool) (r : Nat) :
    isZero (mkSigned s r) = isZero r := by
  unfold isZero
  rw [expF_mkSigned s r, frac_mkSigned s r]

theorem magScaled_mkSigned (s : Bool) (r : Nat) :
    magScaled (mkSigned s r) = magScaled r := by
  unfold magScaled
  rw [expF_mkSigned s r, frac_mkSigned s r]

theorem roundDyadic_lt (mag k : Nat) : roundDyadic mag k < 9223372036854775808 := by
  have h := min_le_right (roundRaw mag k) 9218868437227405312
  unfold roundDyadic
  omega

/-- The square of a float depends only on its magnitude bits, not its sign. -/
theorem fmul_mkSigned_self (s : Bool) (r : Nat) :
    fmul (mkSigned s r) (mkSigned s r) = fmul r r := by
  simp only [fmul, bne_self_eq_false, isNaN_mkSigned s r, isInf_mkSigned s r,
    isZero_mkSigned s r, magScaled_mkSigned s r]

theorem isNaN_of_isInf (b : Nat) (h : isInf b = true) : isNaN b = false := by
  unfold isInf at h
  unfold isNaN
  simp only [Bool.and_eq_true, decide_eq_true_eq] at h
  simp [h.2]

theorem isZero_of_isInf (b : Nat) (h : isInf b = true) : isZero b = false := by
  unfold isInf at h
  unfold isZero
  simp only [Bool.and_eq_true, decide_eq_true_eq] at h
  simp [h.1]

/-- The square of any infinity is +infinity. -/
theorem fmul_inf_self (b : Nat) (h : isInf b = true) :
    fmul b b = 9218868437227405312 := by
  simp only [fmul, isNaN_of_isInf b h, isZero_of_isInf b h, h, bne_self_eq_false,
    Bool.or_self, Bool.false_eq_true, if_false, if_true, mkSigned]

/-- Subtraction of two finite floats, unfolded to its exact-sum form. -/
theorem fsub_finite (x y : Nat) (hy : y < 18446744073709551616)
    (hnx : isNaN x = false) (hny : isNaN y = false)
    (hix : isInf x = false) (hiy : isInf y = false) :
    fsub x y = (if scaledInt x + scaledInt (fneg y) = 0 then
        (if sgn x && sgn (fneg y) then 9223372036854775808 else 0)
      else mkSigned (decide (scaledInt x + scaledInt (fneg y) < 0))
        (roundDyadic (scaledInt x + scaledInt (fneg y)).natAbs 0)) := by
  simp only [fsub, fadd, hnx, isNaN_fneg y hy, hny, hix, isInf_fneg y hy, hiy,
    Bool.or_self, Bool.false_eq_true, if_false]

/-- Subtracting a finite float from an infinity gives back the infinity. -/
theorem fsub_inf_finite (x y : Nat) (hy : y < 18446744073709551616)
    (hnx : isNaN x = false) (hny : isNaN y = false)
    (hix : isInf x = true) (hiy : isInf y = false) :
    fsub x y = x := by
  simp only [fsub, fadd, hnx, isNaN_fneg y hy, hny, hix, isInf_fneg y hy, hiy,
    Bool.or_self, Bool.false_eq_true, if_false, if_true, Bool.false_and,
    Bool.and_false]

/-- Subtracting an infinity from a finite float gives the negated infinity. -/
theorem fsub_finite_inf (x y : Nat) (hy : y < 18446744073709551616)
    (hnx : isNaN x = false) (hny : isNaN y = false)
    (hix : isInf x = false) (hiy : isInf y = true) :
    fsub x y = fneg y := by
  simp only [fsub, fadd, hnx, isNaN_fneg y hy, hny, hix, isInf_fneg y hy, hiy,
    Bool.or_self, Bool.false_eq_true, if_false, if_true]

/-- Subtracting infinities of equal sign gives the canonical quiet NaN. -/
theorem fsub_inf_inf_same (x y : Nat) (hy : y < 18446744073709551616)
    (hix : isInf x = true) (hiy : isInf y = true) (hs : sgn x = sgn y) :
    fsub x y = 9221120237041090560 := by
  have hbne : (sgn x != sgn (fneg y)) = true := by
    rw [sgn_fneg y hy, ← hs]
    cases sgn x <;> rfl
  simp only [fsub, fadd, isNaN_of_isInf x hix, isNaN_of_isInf y hiy,
    isNaN_fneg y hy, hix, isInf_fneg y hy, hiy, hbne, Bool.or_self,
    Bool.false_eq_true, if_false, if_true, Bool.and_true, Bool.true_and]

/-- Subtracting infinities of opposite signs gives back the first infinity. -/
theorem fsub_inf_inf_diff (x y : Nat) (hy : y < 18446744073709551616)
    (hix : isInf x = true) (hiy : isInf y = true) (hs : sgn x ≠ sgn y) :
    fsub x y = x := by
  have hbne : (sgn x != sgn (fneg y)) = false := by
    rw [sgn_fneg y hy]
    revert hs
    cases sgn x <;> cases sgn y <;> simp
  simp only [fsub, fadd, isNaN_of_isInf x hix, isNaN_of_isInf y hiy,
    isNaN_fneg y hy, hix, isInf_fneg y hy, hiy, hbne, Bool.or_self,
    Bool.false_eq_true, if_false, if_true, Bool.and_false]

/-- The squared difference of two non-NaN floats is symmetric bit-for-bit. -/
theorem sq_fsub_comm (x y : Nat) (hx : x < 18446744073709551616)
    (hy : y < 18446744073709551616) (hnx : isNaN x = false) (hny : isNaN y = false) :
    fmul (fsub x y) (fsub x y) = fmul (fsub y x) (fsub y x) := by
  by_cases hix : isInf x = true
  · by_cases hiy : isInf y = true
    · by_cases hs : sgn x = sgn y
      · rw [fsub_inf_inf_same x y hy hix hiy hs,
          fsub_inf_inf_same y x hx hiy hix hs.symm]
      · rw [fsub_inf_inf_diff x y hy hix hiy hs,
          fsub_inf_inf_diff y x hx hiy hix (Ne.symm hs),
          fmul_inf_self x hix, fmul_inf_self y hiy]
    · have hiy2 : isInf y = false := by
        revert hiy
        cases isInf y <;> simp
      rw [fsub_inf_finite x y hy hnx hny hix hiy2,
        fsub_finite_inf y x hx hny hnx hiy2 hix,
        fmul_inf_self x hix,
        fmul_inf_self (fneg x) (by rw [isInf_fneg x hx]; exact hix)]
  · have hix2 : isInf x = false := by
      revert hix
      cases isInf x <;> simp
    by_cases hiy : isInf y = true
    · rw [fsub_finite_inf x y hy hnx hny hix2 hiy,
        fsub_inf_finite y x hx hny hnx hiy hix2,
        fmul_inf_self y hiy,
        fmul_inf_self (fneg y) (by rw [isInf_fneg y hy]; exact hiy)]
    · have hiy2 : isInf y = false := by
        revert hiy
        cases isInf y <;> simp
      have hSyx : scaledInt y + scaledInt (fneg x) =
          -(scaledInt x + scaledInt (fneg y)) := by
        rw [scaledInt_fneg x hx, scaledInt_fneg y hy]
        ring
      rw [fsub_finite x y hy hnx hny hix2 hiy2,
        fsub_finite y x hx hny hnx hiy2 hix2, hSyx]
      by_cases hS : scaledInt x + scaledInt (fneg y) = 0
      · have hS2 : -(scaledInt x + scaledInt (fneg y)) = 0 := by rw [hS]; ring
        rw [if_pos hS, if_pos hS2]
        cases hc1 : (sgn x && sgn (fneg y)) <;> cases hc2 : (sgn y && sgn (fneg x)) <;>
          decide
      · have hS2 : ¬(-(scaledInt x + scaledInt (fneg y)) = 0) := by
          intro hc
          apply hS
          omega
        rw [if_neg hS, if_neg hS2]
        rw [Int.natAbs_neg]
        rw [fmul_mkSigned_self, fmul_mkSigned_self]

theorem fadd_zero_zero : fadd 0 (fmul 0 0) = 0 := by decide

/-- For a finite float the exact difference with itself is zero, and the
result is +0.0. -/
theorem fsub_self (b : Nat) (h : b < 18446744073709551616)
    (hn : isNaN b = false) (hi : isInf b = false) : fsub b b = 0 := by
  rw [fsub_finite b b h hn hn hi hi]
  rw [if_pos (by rw [scaledInt_fneg b h]; ring)]
  rw [sgn_fneg b h]
  cases sgn b <;> rfl

theorem distLoop_self (l : List Nat)
    (h : ∀ b ∈ l, b < 18446744073709551616 ∧ isNaN b = false ∧ isInf b = false) :
    distLoop l l 0 = some 0 := by
  induction l with
  | nil => rfl
  | cons b bs ih =>
      have hb := h b (List.mem_cons_self b bs)
      show distLoop bs bs (fadd 0 (fmul (fsub b b) (fsub b b))) = some 0
      rw [fsub_self b hb.1 hb.2.1 hb.2.2, fadd_zero_zero]
      exact ih (fun q hq => h q (List.mem_cons_of_mem b hq))

theorem distLoop_comm (xs : List Nat) (ys : List Nat) (sum : Nat)
    (hlen : xs.length = ys.length)
    (hx : ∀ b ∈ xs, b < 18446744073709551616 ∧ isNaN b = false)
    (hy : ∀ b ∈ ys, b < 18446744073709551616 ∧ isNaN b = false) :
    distLoop xs ys sum = distLoop ys xs sum := by
  induction xs generalizing ys sum with
  | nil =>
      cases ys with
      | nil => rfl
      | cons y ys2 => simp at hlen
  | cons x xs2 ih =>
      cases ys with
      | nil => simp at hlen
      | cons y ys2 =>
          have hx1 := hx x (List.mem_cons_self x xs2)
          have hy1 := hy y (List.mem_cons_self y ys2)
          show distLoop xs2 ys2 (fadd sum (fmul (fsub x y) (fsub x y))) =
            distLoop ys2 xs2 (fadd sum (fmul (fsub y x) (fsub y x)))
          rw [sq_fsub_comm x y hx1.1 hy1.1 hx1.2 hy1.2]
          exact ih ys2 _ (by simpa using hlen)
            (fun q hq => hx q (List.mem_cons_of_mem x hq))
            (fun q hq => hy q (List.mem_cons_of_mem y hq))

/-- C9 (amended): distanceSquared(p, p) evaluates to a value that compares
equal to 0.0 for every point whose coordinates are all finite (neither NaN
nor infinite); with a NaN or infinite coordinate the result is NaN, which
does not compare equal to 0.  distanceSquared(a, b) and distanceSquared(b, a)
are the same float64, bit for bit, for all same-dimension points with no NaN
coordinates. -/
theorem distanceSquared_props :
    (∀ p : Point,
      (∀ b ∈ p.Pos, b < 18446744073709551616 ∧ isNaN b = false ∧ isInf b = false) →
      ∃ v : Nat, distanceSquared p p = some v ∧ feq v 0 = true) ∧
    (∀ a b : Point, a.Pos.length = b.Pos.length →
      (∀ x ∈ a.Pos, x < 18446744073709551616 ∧ isNaN x = false) →
      (∀ y ∈ b.Pos, y < 18446744073709551616 ∧ isNaN y = false) →
      distanceSquared a b = distanceSquared b a) := by
  constructor
  · intro p hp
    exact ⟨0, distLoop_self p.Pos hp, by decide⟩
  · intro a b hlen ha hb
    exact distLoop_comm a.Pos b.Pos 0 hlen ha hb

/-- Witness for C9: the identity at Pos = [1.0] and the symmetry at the pair
[1.0] versus [2.0]. -/
theorem distanceSquared_props_witness :
    (∃ v : Nat, distanceSquared ⟨[4607182418800017408], []⟩ ⟨[4607182418800017408], []⟩ =
        some v ∧ feq v 0 = true) ∧
    distanceSquared ⟨[4607182418800017408], [5]⟩ ⟨[4611686018427387904], []⟩ =
      distanceSquared ⟨[4611686018427387904], []⟩ ⟨[4607182418800017408], [5]⟩ :=
  ⟨distanceSquared_props.1 ⟨[4607182418800017408], []⟩ (by decide),
   distanceSquared_props.2 ⟨[4607182418800017408], [5]⟩ ⟨[4611686018427387904], []⟩ rfl
     (by decide) (by decide)⟩

/-- C9 counterexample: for the point whose single coordinate is +infinity,
distanceSquared(p, p) is Inf - Inf squared, that is NaN, and NaN does not
compare equal to 0.0, refuting distanceSquared(p, p) == 0 for every p. -/
theorem distanceSquared_inf_not_zero :
    distanceSquared ⟨[9218868437227405312], []⟩ ⟨[9218868437227405312], []⟩ =
      some 9221120237041090560 ∧
    feq 9221120237041090560 0 = false :=
  ⟨rfl, rfl⟩

end Dkdtree
